import Mathlib

/-
Verification of the data-preparation utility `prepare_data` from
`py/desiutil/plots.py` (lines 127-240).

The embedding models one-dimensional numpy arrays as `List ℚ` (a shape is a
length), boolean mask arrays as `List Bool`, and the fallible numpy
reductions (`np.min`, `np.max`, `np.percentile` on an empty selection, the
percentile range check, Python's `float()` parse, and the explicit
`Invalid mask shape` check) as an `Except` error monad.  Rationals stand in
for IEEE floats: no claim under verification depends on rounding.

Mask semantics follow numpy.ma: when the input is already a masked array
and an explicit `mask` argument is also given, the
`numpy.ma.MaskedArray(values, mask=mask)` constructor at line 234 combines
the given mask with the mask the clipped values carry from the input
(`keep_mask` defaults to `True`), and `data[~mask]` at line 212 keeps the
input's own sub-mask on the selected entries, so the mask-aware `np.min` /
`np.max` defaults skip them, while `np.percentile` - which is not
mask-aware - works on the raw selected values.  The model therefore
carries a combined mask (`unionMask` of the explicit and input masks) for
the output and the min/max defaults, and the raw `data[~mask]` selection
for percentile resolution.

Reference-identity facts (the documented "pass the input through without any
copying" fast path, and the sharing of a caller-supplied mask buffer by
`numpy.ma.MaskedArray(..., mask=mask)`, whose `copy` argument defaults to
`False`) are modelled by two instrumentation flags on the result, `aliased`
and `maskShared`, derived from the code path taken.
-/

deriving instance DecidableEq for Except

set_option allowUnsafeReducibility true in
attribute [semireducible] Rat.mul Rat.inv Rat.add Rat.sub Rat.ofScientific

namespace DesiPlots

/-- Errors surfaced by `prepare_data`: the explicit
`ValueError('Invalid mask shape.')` raised at line 211, the `ValueError`
raised by Python's `float()` on a string it cannot convert, the error
raised by `np.min` / `np.max` / `np.percentile` on an empty selection, and
the `ValueError` raised by `np.percentile` when the percentile is outside
`[0, 100]`. -/
inductive PrepErr
  | shapeError
  | parseError
  | emptyReduction
  | percentileRange
  deriving DecidableEq

/-- A value passed as `clip_lo` or `clip_hi`: a Python number, or a Python
string (possibly carrying the `!` mask-on-clip marker and the `%`
percentile marker, which `get_clip` parses). -/
inductive ClipArg
  | num (x : ℚ)
  | str (s : String)
  deriving DecidableEq

/-- The `data` argument after `np.asanyarray` (line 197): either a plain
ndarray, or a masked array carrying its own mask. -/
inductive Input
  | plain (d : List ℚ)
  | maskedArr (d : List ℚ) (m : List Bool)
  deriving DecidableEq

/-- The raw values of the input array. -/
def Input.dataOf : Input → List ℚ
  | .plain d => d
  | .maskedArr d _ => d

/-- Well-formedness of a numpy masked array: its mask has the shape of its
data.  (numpy maintains this invariant for every constructible value.) -/
def Input.WF : Input → Prop
  | .plain _ => True
  | .maskedArr d m => m.length = d.length

/-- Boolean selection `data[~mask]` (line 212): the values at positions
where the mask is `False`. -/
def sel : List ℚ → List Bool → List ℚ
  | _, [] => []
  | [], _ => []
  | x :: xs, b :: bs => if b then sel xs bs else x :: sel xs bs

/-- Pointwise OR of two masks: numpy.ma's `keep_mask` combination of an
explicit mask with the mask already carried by the data. -/
def unionMask (m own : List Bool) : List Bool :=
  List.zipWith (· || ·) m own

/-- Reduction `np.min` (line 226): fails on an empty array with
`ValueError: zero-size array to reduction operation minimum which has no
identity`. -/
def npMin : List ℚ → Except PrepErr ℚ
  | [] => .error .emptyReduction
  | x :: xs => .ok (xs.foldl min x)

/-- Reduction `np.max` (line 230): fails on an empty array. -/
def npMax : List ℚ → Except PrepErr ℚ
  | [] => .error .emptyReduction
  | x :: xs => .ok (xs.foldl max x)

/-- Insertion into a sorted list, used to model numpy's ascending sort. -/
def insertSorted (x : ℚ) : List ℚ → List ℚ
  | [] => [x]
  | y :: ys => if x ≤ y then x :: y :: ys else y :: insertSorted x ys

/-- Ascending sort of the values, as performed inside `np.percentile`. -/
def sortAsc (l : List ℚ) : List ℚ := l.foldr insertSorted []

/-- Model of `np.percentile(a, q)` (line 222) with the default linear
interpolation: for a sorted nonempty array `s` of length `n`, the value at
fractional position `q/100 * (n-1)` interpolated between the two
neighbouring order statistics.  `np.percentile` validates
`0 <= q <= 100` before touching the data, and fails on an empty array. -/
def percentile (l : List ℚ) (q : ℚ) : Except PrepErr ℚ :=
  if q < 0 ∨ 100 < q then .error .percentileRange
  else
    match sortAsc l with
    | [] => .error .emptyReduction
    | s =>
      let n := s.length
      let pos : ℚ := q / 100 * ((n : ℚ) - 1)
      let i : ℕ := pos.floor.toNat
      let vlo := s.getD (min i (n - 1)) 0
      let vhi := s.getD (min (i + 1) (n - 1)) 0
      .ok (vlo + (pos - (i : ℚ)) * (vhi - vlo))

/-- Numeric value of a list of decimal digit characters. -/
def digitsVal (cs : List Char) : ℕ :=
  cs.foldl (fun a c => 10 * a + (c.toNat - 48)) 0

/-- ASCII whitespace stripped by Python's `float()` around a literal. -/
def isWs (c : Char) : Bool :=
  c == ' ' || c == '\t' || c == '\n' || c == '\r' || c == '\x0b' || c == '\x0c'

/-- Strip ASCII whitespace from both ends of a character list. -/
def stripWs (cs : List Char) : List Char :=
  ((cs.dropWhile isWs).reverse.dropWhile isWs).reverse

/-- A nonempty run of decimal digits in which every underscore separates
two digits (Python's digit-grouping rule); returns the digits with the
underscores removed, or `none` if the run is malformed or empty. -/
def digitsU : List Char → Option (List Char)
  | [] => none
  | [c] => if c.isDigit then some [c] else none
  | c :: '_' :: rest => if c.isDigit then (digitsU rest).map (c :: ·) else none
  | c :: rest => if c.isDigit then (digitsU rest).map (c :: ·) else none

/-- The mantissa of a float literal: `digits`, `digits.`, `.digits` or
`digits.digits`, at least one digit in total, underscores only between
digits. -/
def parseMantissa (cs : List Char) : Option ℚ :=
  let ip := cs.takeWhile (fun c => !(c == '.'))
  let rest := cs.dropWhile (fun c => !(c == '.'))
  match rest with
  | [] => (digitsU ip).map (fun ds => (digitsVal ds : ℚ))
  | _ :: fp =>
    if ip.isEmpty && fp.isEmpty then none
    else if ip.isEmpty then
      (digitsU fp).map (fun ds => (digitsVal ds : ℚ) / (10 : ℚ) ^ ds.length)
    else if fp.isEmpty then
      (digitsU ip).map (fun ds => (digitsVal ds : ℚ))
    else do
      let dsi ← digitsU ip
      let dsf ← digitsU fp
      pure ((digitsVal dsi : ℚ) + (digitsVal dsf : ℚ) / (10 : ℚ) ^ dsf.length)

/-- The exponent of a float literal (the part after `e`/`E`): an optional
sign followed by digits; returned as (negative?, magnitude). -/
def parseExp (cs : List Char) : Option (Bool × ℕ) :=
  match cs with
  | '+' :: rest => (digitsU rest).map (fun ds => (false, digitsVal ds))
  | '-' :: rest => (digitsU rest).map (fun ds => (true, digitsVal ds))
  | rest => (digitsU rest).map (fun ds => (false, digitsVal ds))

/-- Scale a mantissa by a signed power of ten. -/
def applyExp (x : ℚ) : Bool × ℕ → ℚ
  | (false, n) => x * (10 : ℚ) ^ n
  | (true, n) => x / (10 : ℚ) ^ n

/-- Model of Python's `float()` conversion (lines 222-223) on the ASCII
grammar of finite literals: surrounding whitespace, an optional sign, and
a decimal mantissa with optional `e`/`E` exponent, with underscores
allowed between digits.  `float()` additionally accepts infinity and NaN
literals; those denote non-finite values outside this rational model and
are recognised separately by `nonFiniteLit`.  Unicode digit/space folding
and the rounding or overflow of the resulting IEEE float are likewise
outside the model. -/
def parseFloat (cs0 : List Char) : Option ℚ :=
  let cs1 := stripWs cs0
  let sgn :=
    match cs1 with
    | '+' :: r => (false, r)
    | '-' :: r => (true, r)
    | r => (false, r)
  let mp := sgn.2.takeWhile (fun c => !(c == 'e' || c == 'E'))
  let rest := sgn.2.dropWhile (fun c => !(c == 'e' || c == 'E'))
  let mval :=
    match rest with
    | [] => parseMantissa mp
    | _ :: ec => do
      let m ← parseMantissa mp
      let ex ← parseExp ec
      pure (applyExp m ex)
  mval.map (fun x => if sgn.1 then -x else x)

/-- ASCII lower-casing of a character. -/
def lowerAscii (c : Char) : Char :=
  if 'A' ≤ c ∧ c ≤ 'Z' then Char.ofNat (c.toNat + 32) else c

/-- Recognises the infinity and NaN literals accepted by Python's
`float()` (case-insensitive, optional sign, surrounding whitespace):
these denote non-finite values with no rational counterpart. -/
def nonFiniteLit (cs0 : List Char) : Bool :=
  let cs1 := stripWs cs0
  let cs2 :=
    match cs1 with
    | '+' :: r => r
    | '-' :: r => r
    | r => r
  let l := cs2.map lowerAscii
  decide (l = ['i', 'n', 'f']) ||
    decide (l = ['i', 'n', 'f', 'i', 'n', 'i', 't', 'y']) ||
    decide (l = ['n', 'a', 'n'])

/-- Python's `value.startswith('!')` (line 218), on the character list of
the string. -/
def startsBang (cs : List Char) : Bool :=
  match cs with
  | '!' :: _ => true
  | _ => false

/-- Python's `value.endswith('%')` (line 221), on the character list of
the string. -/
def endsPct (cs : List Char) : Bool :=
  match cs.getLast? with
  | some '%' => true
  | _ => false

/-- The inner helper `get_clip` (lines 215-223): strings may carry a
leading `!` (mask-on-clip flag, stripped by `value[1:]`) and a trailing `%`
(percentile of the unmasked values, the suffix stripped by `value[:-1]`);
everything else goes through `float()`.  Note that `float(value[:-1])` is
evaluated before `np.percentile` is entered, so a parse failure precedes
any empty-selection failure.  Python string slicing is modelled on the
character list of the string. -/
def get_clip (unmasked : List ℚ) : ClipArg → Except PrepErr (ℚ × Bool)
  | .num x => .ok (x, false)
  | .str s =>
    let cs := s.data
    let bang := startsBang cs
    let cs1 := if bang then cs.drop 1 else cs
    if endsPct cs1 then
      match parseFloat cs1.dropLast with
      | none => .error .parseError
      | some q => (percentile unmasked q).map (fun p => (p, bang))
    else
      match parseFloat cs1 with
      | none => .error .parseError
      | some x => .ok (x, bang)

/-- Resolution of one clip bound (lines 225-232).  An absent bound
defaults to the given reduction (`np.min` for `clip_lo`, `np.max` for
`clip_hi`); these are mask-aware, so they run over `statsSel`, the values
excluded by neither the explicit nor the input's own mask.  A present
bound goes through `get_clip`, whose percentile (`np.percentile` is not
mask-aware) runs over `raw`, the raw values of `data[~mask]`. -/
def resolveBound (statsSel raw : List ℚ) (deflt : List ℚ → Except PrepErr ℚ) :
    Option ClipArg → Except PrepErr (ℚ × Bool)
  | none => (deflt statsSel).map (fun v => (v, false))
  | some c => get_clip raw c

/-- Elementwise `np.clip(x, lo, hi)` = `min(max(x, lo), hi)` (line 234). -/
def clipTo (lo hi x : ℚ) : ℚ := min (max x lo) hi

/-- Result of `prepare_data`.  Besides the values and the mask of the
returned masked array, two instrumentation bits record reference identity:
`aliased` is `true` exactly on the fast path `return data` (line 204) that
returns the input object itself, and `maskShared` is `true` exactly when
the returned array's mask buffer is the caller's mask argument (a plain
input plus an explicit boolean mask array: `np.asarray` is the identity on
a boolean ndarray and `numpy.ma.MaskedArray(values, mask=mask)` stores a
reference to it, since its `copy` argument defaults to `False`; for a
masked input the constructor combines the two masks into a fresh buffer,
`keep_mask` being `True` by default). -/
structure PrepOut where
  outData : List ℚ
  outMask : List Bool
  aliased : Bool
  maskShared : Bool
  deriving DecidableEq

/-- The output mask (lines 234-238): the mask `m` carried by the
constructed array, set additionally to `True` at positions where the
original value is strictly below a mask-on-clip low bound or strictly
above a mask-on-clip high bound. -/
def bangMask (d : List ℚ) (m : List Bool) (lo : ℚ) (blo : Bool)
    (hi : ℚ) (bhi : Bool) : List Bool :=
  List.zipWith
    (fun x b => b || (blo && decide (x < lo)) || (bhi && decide (x > hi))) d m

/-- The common tail of `prepare_data` (lines 212-240).  `m` is the mask
the output carries (the explicit or input mask, or their `keep_mask`
union when both are present) and `raw` is the raw `data[~mask]` selection
used by `np.percentile`: resolve `clip_lo` then `clip_hi`, clip every
value of `data`, and extend the mask at the mask-on-clip positions. -/
def prepare_core (d : List ℚ) (m : List Bool) (raw : List ℚ)
    (clip_lo clip_hi : Option ClipArg) (shared : Bool) : Except PrepErr PrepOut := do
  let lov ← resolveBound (sel d m) raw npMin clip_lo
  let hiv ← resolveBound (sel d m) raw npMax clip_hi
  .ok ⟨d.map (clipTo lov.1 hiv.1), bangMask d m lov.1 lov.2 hiv.1 hiv.2,
       false, shared⟩

/-- The function `prepare_data` (lines 197-240).  With no mask argument, a
masked input either takes the no-copy fast path (no clip bounds requested,
line 204) or contributes its own mask; a plain input gets an all-`False`
mask (line 207).  An explicit mask argument must match the data shape
(line 211); for a plain input it becomes the output mask, while for a
masked input the constructor at line 234 combines it with the input's own
mask (`keep_mask=True`), the mask-aware `np.min`/`np.max` defaults skip
the elements masked by either, and `np.percentile` sees the raw
`data[~mask]` values. -/
def prepare_data (input : Input) (mask : Option (List Bool))
    (clip_lo clip_hi : Option ClipArg) : Except PrepErr PrepOut :=
  match mask with
  | none =>
    match input with
    | .maskedArr d mm =>
      if clip_lo.isNone && clip_hi.isNone then .ok ⟨d, mm, true, false⟩
      else prepare_core d mm (sel d mm) clip_lo clip_hi false
    | .plain d =>
      prepare_core d (List.replicate d.length false)
        (sel d (List.replicate d.length false)) clip_lo clip_hi false
  | some m =>
    if m.length = input.dataOf.length then
      match input with
      | .plain d => prepare_core d m (sel d m) clip_lo clip_hi true
      | .maskedArr d mm =>
        prepare_core d (unionMask m mm) (sel d m) clip_lo clip_hi false
    else .error .shapeError

/-- The effective mask of a call in the sense of the specification's step 1
(lines 198-211): the explicit mask argument if given, otherwise the
input's own mask, otherwise all-`False`.  This is the `mask` variable of
the source, whose complement selects `unmasked_data`. -/
def effMask (input : Input) (ma : Option (List Bool)) : List Bool :=
  match ma with
  | some m => m
  | none =>
    match input with
    | .maskedArr _ m => m
    | .plain d => List.replicate d.length false

/-- The mask actually carried by the output array before any `!`
extension: the effective mask combined (`keep_mask` OR) with the input's
own mask.  It differs from `effMask` only when an explicit mask argument
is given together with an already-masked input. -/
def combMask (input : Input) (ma : Option (List Bool)) : List Bool :=
  match ma with
  | some m =>
    match input with
    | .plain _ => m
    | .maskedArr _ mm => unionMask m mm
  | none =>
    match input with
    | .maskedArr _ mm => mm
    | .plain d => List.replicate d.length false

/-- The body of a string clip specifier: the characters left after
stripping the optional leading `!` and then the optional trailing `%`,
exactly as `get_clip` strips them before calling `float()`. -/
def stripSpec (cs : List Char) : List Char :=
  let cs1 := if startsBang cs then cs.drop 1 else cs
  if endsPct cs1 then cs1.dropLast else cs1

/-- A clip bound argument is "plain" when it is absent or a Python number,
i.e. not a string specifier. -/
def plainBound : Option ClipArg → Bool
  | some (.str _) => false
  | _ => true

/-- A clip bound argument forces a reduction over the unmasked data: it is
absent (defaulting to `np.min`/`np.max`) or a percentile string. -/
def needsData : Option ClipArg → Bool
  | none => true
  | some (.num _) => false
  | some (.str s) => endsPct (if startsBang s.data then s.data.drop 1 else s.data)

/-- The no-copy fast path of line 204 is taken exactly when no mask
argument, no clip bounds, and an already-masked input are given. -/
def isFastPath (input : Input) (ma : Option (List Bool))
    (clo chi : Option ClipArg) : Bool :=
  ma.isNone && (match input with | .maskedArr _ _ => true | .plain _ => false) &&
    clo.isNone && chi.isNone

/-- The flag recording whether the output mask buffer aliases the caller's
explicit mask array: a plain input with an explicit mask. -/
def sharedFlag (input : Input) : Bool :=
  match input with
  | .plain _ => true
  | .maskedArr _ _ => false

theorem zipWith_proj2 : ∀ (d : List ℚ) (m : List Bool), m.length = d.length →
    List.zipWith (fun _ b => b) d m = m
  | _, [], _ => by simp
  | [], b :: bs, h => by simp at h
  | x :: xs, b :: bs, h => by
    simp only [List.zipWith_cons_cons]
    exact congrArg (b :: ·) (zipWith_proj2 xs bs (by simpa using h))

theorem bangMask_no_flags (lo hi : ℚ) (d : List ℚ) (m : List Bool)
    (h : m.length = d.length) : bangMask d m lo false hi false = m := by
  simp only [bangMask, Bool.false_and, Bool.or_false]
  exact zipWith_proj2 d m h

theorem bangMask_length (d : List ℚ) (m : List Bool) (lo : ℚ) (blo : Bool)
    (hi : ℚ) (bhi : Bool) :
    (bangMask d m lo blo hi bhi).length = min d.length m.length := by
  simp [bangMask]

theorem unionMask_length (a b : List Bool) :
    (unionMask a b).length = min a.length b.length := by
  simp [unionMask]

theorem unionMask_self : ∀ m : List Bool, unionMask m m = m
  | [] => rfl
  | b :: bs => by
    show (b || b) :: unionMask bs bs = b :: bs
    rw [Bool.or_self, unionMask_self bs]

theorem unionMask_absorb : ∀ m mm : List Bool,
    unionMask m (unionMask m mm) = unionMask m mm
  | [], _ => rfl
  | _ :: _, [] => rfl
  | b :: bs, c :: cs => by
    show (b || (b || c)) :: unionMask bs (unionMask bs cs) = (b || c) :: unionMask bs cs
    rw [unionMask_absorb bs cs, ← Bool.or_assoc, Bool.or_self]

theorem sel_union_empty : ∀ (d : List ℚ) (m mm : List Bool),
    sel d m = [] → sel d (unionMask m mm) = []
  | _, [], _, _ => by simp [unionMask, sel]
  | [], _ :: _, mm, _ => by cases mm <;> rfl
  | _ :: _, _ :: _, [], _ => rfl
  | x :: xs, b :: bs, c :: cs, h => by
    cases b with
    | false => simp [sel] at h
    | true =>
      show sel (x :: xs) ((true || c) :: unionMask bs cs) = []
      rw [Bool.true_or]
      show sel xs (unionMask bs cs) = []
      exact sel_union_empty xs bs cs (by simpa [sel] using h)

theorem combMask_some_length (input : Input) (m : List Bool) (hwf : input.WF)
    (hlen : m.length = input.dataOf.length) :
    (combMask input (some m)).length = input.dataOf.length := by
  cases input with
  | plain d => exact hlen
  | maskedArr d mm =>
    have h2 : mm.length = d.length := hwf
    have h1 : m.length = d.length := hlen
    simp only [combMask, Input.dataOf, unionMask_length, h1, h2, min_self]

theorem sel_map (f : ℚ → ℚ) :
    ∀ (d : List ℚ) (m : List Bool), sel (d.map f) m = (sel d m).map f
  | _, [] => by simp [sel]
  | [], _ :: _ => by simp [sel]
  | x :: xs, b :: bs => by
    cases b <;> simp [sel, sel_map f xs bs]

theorem foldl_min_map (f : ℚ → ℚ) (hf : ∀ a b, f (min a b) = min (f a) (f b)) :
    ∀ (l : List ℚ) (a : ℚ), (l.map f).foldl min (f a) = f (l.foldl min a)
  | [], _ => rfl
  | x :: xs, a => by
    simp only [List.map_cons, List.foldl_cons]
    rw [← hf, foldl_min_map f hf xs]

theorem foldl_max_map (f : ℚ → ℚ) (hf : ∀ a b, f (max a b) = max (f a) (f b)) :
    ∀ (l : List ℚ) (a : ℚ), (l.map f).foldl max (f a) = f (l.foldl max a)
  | [], _ => rfl
  | x :: xs, a => by
    simp only [List.map_cons, List.foldl_cons]
    rw [← hf, foldl_max_map f hf xs]

theorem npMin_map (f : ℚ → ℚ) (hf : ∀ a b, f (min a b) = min (f a) (f b))
    (l : List ℚ) : npMin (l.map f) = (npMin l).map f := by
  cases l with
  | nil => rfl
  | cons x xs => simp [npMin, Except.map, foldl_min_map f hf]

theorem npMax_map (f : ℚ → ℚ) (hf : ∀ a b, f (max a b) = max (f a) (f b))
    (l : List ℚ) : npMax (l.map f) = (npMax l).map f := by
  cases l with
  | nil => rfl
  | cons x xs => simp [npMax, Except.map, foldl_max_map f hf]

theorem clipTo_min_distrib (lo hi a b : ℚ) :
    clipTo lo hi (min a b) = min (clipTo lo hi a) (clipTo lo hi b) := by
  unfold clipTo
  rw [sup_inf_right, inf_inf_distrib_right]

theorem clipTo_max_distrib (lo hi a b : ℚ) :
    clipTo lo hi (max a b) = max (clipTo lo hi a) (clipTo lo hi b) := by
  unfold clipTo
  rw [sup_sup_distrib_right, inf_sup_right]

theorem clipTo_idem (lo hi x : ℚ) : clipTo lo hi (clipTo lo hi x) = clipTo lo hi x := by
  unfold clipTo
  rcases le_total lo hi with h | h
  · have h1 : lo ≤ min (max x lo) hi := le_min (le_max_right x lo) h
    rw [max_eq_left h1, min_eq_left (min_le_right (max x lo) hi)]
  · have h1 : min (max x lo) hi = hi :=
      min_eq_right (le_trans h (le_max_right x lo))
    rw [h1, max_eq_right h, min_eq_right h]

theorem clipTo_glb (lo hi x : ℚ) :
    clipTo (min lo hi) hi (clipTo lo hi x) = clipTo lo hi x := by
  unfold clipTo
  have h1 : min lo hi ≤ min (max x lo) hi :=
    min_le_min (le_max_right x lo) (le_refl hi)
  rw [max_eq_left h1]
  exact min_eq_left (min_le_right _ _)

theorem map_comp_cancel (f g : ℚ → ℚ) (h : ∀ x, g (f x) = f x) :
    ∀ l : List ℚ, (l.map f).map g = l.map f
  | [] => rfl
  | x :: xs => by simp only [List.map_cons, h, map_comp_cancel f g h xs]

theorem clipTo_le_hi (lo hi x : ℚ) : clipTo lo hi x ≤ hi := min_le_right _ _

theorem lo_le_clipTo (lo hi x : ℚ) (h : lo ≤ hi) : lo ≤ clipTo lo hi x :=
  le_min (le_max_right x lo) h

theorem prepare_core_num (d : List ℚ) (m : List Bool) (raw : List ℚ)
    (lo hi : ℚ) (sh : Bool) :
    prepare_core d m raw (some (.num lo)) (some (.num hi)) sh =
      .ok ⟨d.map (clipTo lo hi), bangMask d m lo false hi false, false, sh⟩ := rfl

theorem prepare_data_some (input : Input) (m : List Bool) (clo chi : Option ClipArg)
    (h : m.length = input.dataOf.length) :
    prepare_data input (some m) clo chi =
      prepare_core input.dataOf (combMask input (some m)) (sel input.dataOf m)
        clo chi (sharedFlag input) := by
  cases input <;>
    simp only [prepare_data, combMask, sharedFlag, Input.dataOf] at h ⊢ <;>
    simp [h]

theorem prepare_data_none_plain (d : List ℚ) (clo chi : Option ClipArg) :
    prepare_data (.plain d) none clo chi =
      prepare_core d (List.replicate d.length false)
        (sel d (List.replicate d.length false)) clo chi false := rfl

theorem prepare_data_none_masked (d : List ℚ) (mm : List Bool)
    (clo chi : Option ClipArg) (h : (clo.isNone && chi.isNone) = false) :
    prepare_data (.maskedArr d mm) none clo chi =
      prepare_core d mm (sel d mm) clo chi false := by
  simp [prepare_data, h]

theorem prepare_data_shape_err (input : Input) (m : List Bool)
    (clo chi : Option ClipArg) (h : m.length ≠ input.dataOf.length) :
    prepare_data input (some m) clo chi = .error .shapeError := by
  simp [prepare_data, h]

theorem except_bind_ok {α β : Type} (a : α) (f : α → Except PrepErr β) :
    ((Except.ok a : Except PrepErr α) >>= f) = f a := rfl

theorem except_bind_err {α β : Type} (e : PrepErr) (f : α → Except PrepErr β) :
    ((Except.error e : Except PrepErr α) >>= f) = .error e := rfl

theorem except_map_ok {α β : Type} (f : α → β) (a : α) :
    (Except.map f (.ok a) : Except PrepErr β) = .ok (f a) := rfl

theorem except_map_err {α β : Type} (f : α → β) (e : PrepErr) :
    (Except.map f (.error e) : Except PrepErr β) = .error e := rfl

/-- C2 (counterexample): with an already-masked input and an explicit mask
argument, the output mask is not the effective input mask: for
`data = ma([0,2], mask=[F,T])`, `mask=[F,F]` and the numeric bounds
`0 <= 5`, the `keep_mask` combination of the constructor at line 234
returns mask `[F,T]`, not the effective (explicit) mask `[F,F]`. -/
theorem C2_cex_combined_mask :
    prepare_data (.maskedArr [0, 2] [false, true]) (some [false, false])
        (some (ClipArg.num 0)) (some (ClipArg.num 5)) =
      .ok ⟨[0, 2], [false, true], false, false⟩ ∧
      ([false, true] : List Bool) ≠
        effMask (.maskedArr [0, 2] [false, true]) (some [false, false]) ∧
      (0 : ℚ) ≤ 5 :=
  ⟨by decide, by decide, by decide⟩

/-- C2 (amended): for plain numeric bounds with `clip_lo <= clip_hi`,
every output value lies in the closed interval `[clip_lo, clip_hi]`, and
the output mask equals the effective input mask combined (OR) with the
input's own mask - numpy's `keep_mask` combination; the two coincide
except when an explicit mask argument is given together with an
already-masked input.  Numeric bounds carry no `!` flag, so no further
position is added to the mask. -/
theorem C2_amended_numeric_bounds (input : Input) (ma : Option (List Bool)) (lo hi : ℚ)
    (hwf : input.WF) (hm : (effMask input ma).length = input.dataOf.length)
    (hle : lo ≤ hi) :
    ∃ out, prepare_data input ma (some (.num lo)) (some (.num hi)) = .ok out ∧
      out.outMask = combMask input ma ∧
      ∀ x ∈ out.outData, lo ≤ x ∧ x ≤ hi := by
  have hvals : ∀ x ∈ (input.dataOf).map (clipTo lo hi), lo ≤ x ∧ x ≤ hi := by
    intro x hx
    rcases List.mem_map.mp hx with ⟨y, _, rfl⟩
    exact ⟨lo_le_clipTo lo hi y hle, clipTo_le_hi lo hi y⟩
  cases ma with
  | some m =>
    have hm' : m.length = input.dataOf.length := hm
    have hcomb := combMask_some_length input m hwf hm'
    refine ⟨⟨(input.dataOf).map (clipTo lo hi), combMask input (some m), false,
      sharedFlag input⟩, ?_, rfl, hvals⟩
    rw [prepare_data_some input m _ _ hm', prepare_core_num,
      bangMask_no_flags lo hi _ _ hcomb]
  | none =>
    cases input with
    | plain d =>
      refine ⟨⟨d.map (clipTo lo hi), List.replicate d.length false, false, false⟩,
        ?_, rfl, hvals⟩
      rw [prepare_data_none_plain, prepare_core_num,
        bangMask_no_flags lo hi _ _ (by simp)]
    | maskedArr d mm =>
      refine ⟨⟨d.map (clipTo lo hi), mm, false, false⟩, ?_, rfl, hvals⟩
      rw [prepare_data_none_masked d mm (some (.num lo)) (some (.num hi)) rfl,
        prepare_core_num, bangMask_no_flags lo hi _ _ hwf]

/-- Witness for the amended C2 at the mask-combining input
`data = ma([0,2], mask=[F,T])`, `mask=[F,F]`, bounds `0 <= 5`. -/
theorem C2_amended_numeric_bounds_witness :
    Input.WF (.maskedArr [0, 2] [false, true]) ∧ (0 : ℚ) ≤ 5 ∧
      ∃ out, prepare_data (.maskedArr [0, 2] [false, true]) (some [false, false])
          (some (.num 0)) (some (.num 5)) = .ok out ∧
        out.outMask = combMask (.maskedArr [0, 2] [false, true]) (some [false, false]) ∧
        ∀ x ∈ out.outData, 0 ≤ x ∧ x ≤ 5 :=
  ⟨rfl, by norm_num,
    C2_amended_numeric_bounds (.maskedArr [0, 2] [false, true]) (some [false, false])
      0 5 rfl (by decide) (by norm_num)⟩

/-- C1: with no mask argument and no clip bounds, an input that is already
a masked array is returned as the identical object: the values and the
mask are those of the input, and the `aliased` instrumentation bit records
that the code path taken is the literal `return data` of line 204, which
returns the input reference without any copy. -/
theorem C1_fast_path_identity (d : List ℚ) (m : List Bool) :
    prepare_data (.maskedArr d m) none none none = .ok ⟨d, m, true, false⟩ := rfl

/-- C4: a percentile specifier is resolved over the currently-unmasked
values: on `[0,1,2,3,4]` with `clip_lo="25%"`, the bound resolves to the
25th percentile `1.0` of all five values and the output is
`[1,1,2,3,4]` with an all-`False` mask; with the first element masked,
the same specifier instead resolves over the four unmasked values to
`1.75`, showing that masked values are excluded from the percentile. -/
theorem C4_percentile_resolution :
    prepare_data (.plain [0, 1, 2, 3, 4]) none (some (ClipArg.str "25%")) none =
        .ok ⟨[1, 1, 2, 3, 4], List.replicate 5 false, false, false⟩ ∧
      percentile [0, 1, 2, 3, 4] 25 = .ok 1 ∧
      prepare_data (.plain [0, 1, 2, 3, 4]) (some [true, false, false, false, false])
          (some (ClipArg.str "25%")) none =
        .ok ⟨[7/4, 7/4, 2, 3, 4], [true, false, false, false, false], false, true⟩ :=
  ⟨by decide, by decide, by decide⟩

/-- C7: an explicit mask argument whose shape (length) differs from the
data's shape makes the call fail with the shape error of line 211, before
any output is produced. -/
theorem C7_shape_mismatch (input : Input) (m : List Bool)
    (clip_lo clip_hi : Option ClipArg) (h : m.length ≠ input.dataOf.length) :
    prepare_data input (some m) clip_lo clip_hi = .error .shapeError := by
  simp [prepare_data, h]

/-- Witness for C7 at data shape `(5,)` and mask shape `(4,)`. -/
theorem C7_shape_mismatch_witness :
    prepare_data (.plain [0, 1, 2, 3, 4]) (some [false, false, false, false])
      none none = .error .shapeError :=
  C7_shape_mismatch _ _ _ _ (by decide)

/-- C6 (code bug): a call with a plain input, a caller-supplied boolean
mask array, and a mask-on-clip bound returns a masked array whose mask
buffer is the caller's array (`maskShared = true`: `np.asarray` is the
identity on a boolean ndarray, and `numpy.ma.MaskedArray(values, mask=mask)`
stores a reference to it since `copy` defaults to `False`), and whose mask
contents differ from the caller's original values - so line 236,
`clipped.mask[data < clip_lo] = True`, has written `True` into the
caller's mask array in place, mutating an argument. -/
theorem C6_caller_mask_mutated :
    prepare_data (.plain [0, 2]) (some [false, false]) (some (ClipArg.str "!1")) none =
        .ok ⟨[1, 2], [true, false], false, true⟩ ∧
      [true, false] ≠ [false, false] :=
  ⟨by decide, by decide⟩

/-- C5 (counterexample): idempotence fails for a percentile bound.  On
`[0,1,2,3,4]` with `clip_lo="!25%"`, the first application resolves the
bound to `1`, returning values `[1,1,2,3,4]` with mask `[T,F,F,F,F]`;
applying the function again with the same arguments to that output
re-resolves the percentile over the now-unmasked values `[1,2,3,4]` to
`1.75`, returning different values `[1.75,1.75,2,3,4]` and a different
mask `[T,T,F,F,F]`. -/
theorem C5_cex_idempotence_fails :
    prepare_data (.plain [0, 1, 2, 3, 4]) none (some (ClipArg.str "!25%")) none =
        .ok ⟨[1, 1, 2, 3, 4], [true, false, false, false, false], false, false⟩ ∧
      prepare_data (.maskedArr [1, 1, 2, 3, 4] [true, false, false, false, false]) none
          (some (ClipArg.str "!25%")) none =
        .ok ⟨[7/4, 7/4, 2, 3, 4], [true, true, false, false, false], false, false⟩ ∧
      ([7/4, 7/4, 2, 3, 4] : List ℚ) ≠ [1, 1, 2, 3, 4] :=
  ⟨by decide, by decide, by decide⟩

/-- C8 (counterexample): a string clip bound that does not end with `%`
is not rejected when its body is numeric: `clip_lo="3.5"` is accepted by
the `float(value)` fallthrough of line 223 and the call returns a clipped
result instead of failing with a parse error. -/
theorem C8_cex_numeric_string_accepted :
    prepare_data (.plain [0, 1, 2, 3, 4]) none (some (ClipArg.str "3.5")) none =
      .ok ⟨[7/2, 7/2, 7/2, 7/2, 4], List.replicate 5 false, false, false⟩ := by
  decide

theorem prepare_core_shape (d : List ℚ) (m : List Bool) (raw : List ℚ)
    (clo chi : Option ClipArg) (sh : Bool) (out : PrepOut)
    (hm : m.length = d.length)
    (hok : prepare_core d m raw clo chi sh = .ok out) :
    out.outData.length = d.length ∧ out.outMask.length = d.length := by
  unfold prepare_core at hok
  cases h1 : resolveBound (sel d m) raw npMin clo with
  | error e => rw [h1, except_bind_err] at hok; cases hok
  | ok lov =>
    rw [h1, except_bind_ok] at hok
    cases h2 : resolveBound (sel d m) raw npMax chi with
    | error e => rw [h2, except_bind_err] at hok; cases hok
    | ok hiv =>
      rw [h2, except_bind_ok] at hok
      injection hok with h
      subst h
      refine ⟨by simp, ?_⟩
      rw [bangMask_length, hm, min_self]

/-- C9: every call that returns a result produces a masked array whose
values and mask both have the shape (length) of the input data. -/
theorem C9_shape_preserved (input : Input) (ma : Option (List Bool))
    (clo chi : Option ClipArg) (out : PrepOut) (hwf : input.WF)
    (hok : prepare_data input ma clo chi = .ok out) :
    out.outData.length = input.dataOf.length ∧
      out.outMask.length = input.dataOf.length := by
  cases ma with
  | some m =>
    by_cases hlen : m.length = input.dataOf.length
    · rw [prepare_data_some input m clo chi hlen] at hok
      exact prepare_core_shape _ _ _ _ _ _ _
        (combMask_some_length input m hwf hlen) hok
    · rw [prepare_data_shape_err input m clo chi hlen] at hok; cases hok
  | none =>
    cases input with
    | plain d =>
      rw [prepare_data_none_plain] at hok
      exact prepare_core_shape _ _ _ _ _ _ _ (by simp [Input.dataOf]) hok
    | maskedArr d mm =>
      by_cases hcc : (clo.isNone && chi.isNone) = true
      · obtain ⟨hc1, hc2⟩ := Bool.and_eq_true_iff.mp hcc
        rw [Option.isNone_iff_eq_none] at hc1 hc2
        subst hc1; subst hc2
        have hfast : prepare_data (.maskedArr d mm) none none none =
            .ok ⟨d, mm, true, false⟩ := rfl
        rw [hfast] at hok
        injection hok with h
        subst h
        exact ⟨rfl, hwf⟩
      · rw [prepare_data_none_masked d mm clo chi (Bool.eq_false_iff.mpr hcc)] at hok
        exact prepare_core_shape _ _ _ _ _ _ _ hwf hok

/-- Witness for C9 on a plain two-element call with no optional
arguments. -/
theorem C9_shape_preserved_witness :
    (PrepOut.outData ⟨[1, 2], [false, false], false, false⟩).length =
        (Input.dataOf (.plain [1, 2])).length ∧
      (PrepOut.outMask ⟨[1, 2], [false, false], false, false⟩).length =
        (Input.dataOf (.plain [1, 2])).length :=
  C9_shape_preserved (.plain [1, 2]) none none none
    ⟨[1, 2], [false, false], false, false⟩ trivial (by decide)

theorem prepare_core_mask (d : List ℚ) (m : List Bool) (raw : List ℚ)
    (clo chi : Option ClipArg) (sh : Bool) (out : PrepOut)
    (lo hi : ℚ) (blo bhi : Bool)
    (hlo : resolveBound (sel d m) raw npMin clo = .ok (lo, blo))
    (hhi : resolveBound (sel d m) raw npMax chi = .ok (hi, bhi))
    (hok : prepare_core d m raw clo chi sh = .ok out) :
    out.outMask = bangMask d m lo blo hi bhi := by
  unfold prepare_core at hok
  rw [hlo, except_bind_ok, hhi, except_bind_ok] at hok
  injection hok with h
  subst h
  rfl

theorem resolveBound_none_flag (um raw : List ℚ) (deflt : List ℚ → Except PrepErr ℚ)
    (lo : ℚ) (b : Bool) (h : resolveBound um raw deflt none = .ok (lo, b)) :
    b = false := by
  unfold resolveBound at h
  cases hd : deflt um with
  | error e => rw [hd, except_map_err] at h; cases h
  | ok v =>
    rw [hd, except_map_ok] at h
    injection h with h'
    injection h' with h1 h2
    exact h2.symm

/-- C3 (counterexample): with an already-masked input and an explicit mask
argument, positions beyond the effective mask and the flagged out-of-bound
positions are masked: for `data = ma([0,2], mask=[F,T])`, `mask=[F,F]`,
`clip_lo="!1"`, `clip_hi=5`, the bounds resolve to `(1, flagged)` and
`(5, unflagged)`, yet the output mask is `[T,T]` - index 1 comes from the
input's own mask - while the effective mask OR'd with the flagged
positions is only `[T,F]`. -/
theorem C3_cex_combined_mask :
    resolveBound
        (sel [0, 2] (combMask (.maskedArr [0, 2] [false, true]) (some [false, false])))
        (sel [0, 2] (effMask (.maskedArr [0, 2] [false, true]) (some [false, false])))
        npMin (some (ClipArg.str "!1")) = .ok (1, true) ∧
      resolveBound
        (sel [0, 2] (combMask (.maskedArr [0, 2] [false, true]) (some [false, false])))
        (sel [0, 2] (effMask (.maskedArr [0, 2] [false, true]) (some [false, false])))
        npMax (some (ClipArg.num 5)) = .ok (5, false) ∧
      prepare_data (.maskedArr [0, 2] [false, true]) (some [false, false])
        (some (ClipArg.str "!1")) (some (ClipArg.num 5)) =
        .ok ⟨[1, 2], [true, true], false, false⟩ ∧
      ([true, true] : List Bool) ≠
        bangMask [0, 2] (effMask (.maskedArr [0, 2] [false, true]) (some [false, false]))
          1 true 5 false :=
  ⟨by decide, by decide, by decide, by decide⟩

/-- C3 (amended): whenever a call succeeds, its output mask is exactly the
input's combined mask - the effective mask OR'd with the input's own mask,
numpy's `keep_mask` combination, which equals the effective mask whenever
an explicit mask is not given together with an already-masked input -
OR'd with the positions whose original value is strictly below the
resolved low bound (when that bound carries the `!` flag) and the
positions whose original value is strictly above the resolved high bound
(when that bound carries the `!` flag); no other position is masked. -/
theorem C3_amended_mask_on_clip (input : Input) (ma : Option (List Bool))
    (clo chi : Option ClipArg) (out : PrepOut) (lo hi : ℚ) (blo bhi : Bool)
    (hwf : input.WF) (hm : (effMask input ma).length = input.dataOf.length)
    (hlo : resolveBound (sel input.dataOf (combMask input ma))
      (sel input.dataOf (effMask input ma)) npMin clo = .ok (lo, blo))
    (hhi : resolveBound (sel input.dataOf (combMask input ma))
      (sel input.dataOf (effMask input ma)) npMax chi = .ok (hi, bhi))
    (hok : prepare_data input ma clo chi = .ok out) :
    out.outMask = bangMask input.dataOf (combMask input ma) lo blo hi bhi := by
  cases ma with
  | some m =>
    rw [prepare_data_some input m clo chi hm] at hok
    exact prepare_core_mask _ _ _ _ _ _ _ _ _ _ _ hlo hhi hok
  | none =>
    cases input with
    | plain d =>
      rw [prepare_data_none_plain] at hok
      exact prepare_core_mask _ _ _ _ _ _ _ _ _ _ _ hlo hhi hok
    | maskedArr d mm =>
      by_cases hcc : (clo.isNone && chi.isNone) = true
      · obtain ⟨hc1, hc2⟩ := Bool.and_eq_true_iff.mp hcc
        rw [Option.isNone_iff_eq_none] at hc1 hc2
        subst hc1; subst hc2
        have hb1 : blo = false := resolveBound_none_flag _ _ _ _ _ hlo
        have hb2 : bhi = false := resolveBound_none_flag _ _ _ _ _ hhi
        subst hb1; subst hb2
        have hfast : prepare_data (.maskedArr d mm) none none none =
            .ok ⟨d, mm, true, false⟩ := rfl
        rw [hfast] at hok
        injection hok with h
        subst h
        exact (bangMask_no_flags lo hi _ _ hwf).symm
      · rw [prepare_data_none_masked d mm clo chi (Bool.eq_false_iff.mpr hcc)] at hok
        exact prepare_core_mask _ _ _ _ _ _ _ _ _ _ _ hlo hhi hok

/-- Witness for the amended C3 at the mask-combining input
`data = ma([0,2], mask=[F,T])`, `mask=[F,F]`, `clip_lo="!1"`,
`clip_hi=5`. -/
theorem C3_amended_mask_on_clip_witness :
    PrepOut.outMask ⟨[1, 2], [true, true], false, false⟩ =
      bangMask [0, 2] (combMask (.maskedArr [0, 2] [false, true]) (some [false, false]))
        1 true 5 false :=
  C3_amended_mask_on_clip (.maskedArr [0, 2] [false, true]) (some [false, false])
    (some (ClipArg.str "!1")) (some (ClipArg.num 5))
    ⟨[1, 2], [true, true], false, false⟩ 1 5 true false
    rfl (by decide) (by decide) (by decide) (by decide)

theorem get_clip_empty_pct (s : String)
    (h : endsPct (if startsBang s.data then s.data.drop 1 else s.data) = true) :
    ∃ e, get_clip [] (ClipArg.str s) = .error e := by
  simp only [get_clip, h, if_true]
  cases hp : parseFloat ((if startsBang s.data then s.data.drop 1 else s.data).dropLast) with
  | none => exact ⟨.parseError, rfl⟩
  | some q =>
    by_cases hq : q < 0 ∨ 100 < q
    · exact ⟨.percentileRange, by simp [percentile, hq, except_map_err]⟩
    · exact ⟨.emptyReduction, by simp [percentile, hq, sortAsc, except_map_err]⟩

theorem resolveBound_empty_err (deflt : List ℚ → Except PrepErr ℚ)
    (hd : deflt [] = .error .emptyReduction) (b : Option ClipArg)
    (hb : needsData b = true) : ∃ e, resolveBound [] [] deflt b = .error e := by
  cases b with
  | none => exact ⟨.emptyReduction, by simp [resolveBound, hd, except_map_err]⟩
  | some c =>
    cases c with
    | num x => simp [needsData] at hb
    | str s => exact get_clip_empty_pct s (by simpa [needsData] using hb)

theorem prepare_core_empty_err (d : List ℚ) (m : List Bool) (clo chi : Option ClipArg)
    (sh : Bool) (hstats : sel d m = [])
    (hneeds : (needsData clo || needsData chi) = true) :
    ∃ e, prepare_core d m [] clo chi sh = .error e := by
  unfold prepare_core
  rw [hstats]
  cases h1 : resolveBound [] [] npMin clo with
  | error e => exact ⟨e, by rw [except_bind_err]⟩
  | ok lov =>
    have hchi : needsData chi = true := by
      rcases Bool.or_eq_true_iff.mp hneeds with h | h
      · obtain ⟨e, he⟩ := resolveBound_empty_err npMin rfl clo h
        rw [he] at h1
        cases h1
      · exact h
    obtain ⟨e, he⟩ := resolveBound_empty_err npMax rfl chi hchi
    exact ⟨e, by rw [except_bind_ok, he, except_bind_err]⟩

/-- C10: when the effective mask excludes every element, any call that
reaches bound resolution (i.e. not the no-copy fast path) and has a bound
that must be resolved from the data's distribution - absent (defaulting to
`np.min`/`np.max`) or a percentile specifier - fails with an error from the
reduction over the empty selection instead of returning a masked array. -/
theorem C10_empty_selection (input : Input) (ma : Option (List Bool))
    (clo chi : Option ClipArg) (hwf : input.WF)
    (hm : (effMask input ma).length = input.dataOf.length)
    (hsel : sel input.dataOf (effMask input ma) = [])
    (hnf : isFastPath input ma clo chi = false)
    (hneeds : (needsData clo || needsData chi) = true) :
    ∃ e, prepare_data input ma clo chi = .error e := by
  cases ma with
  | some m =>
    have hm' : m.length = input.dataOf.length := hm
    have hraw : sel input.dataOf m = [] := hsel
    rw [prepare_data_some input m clo chi hm', hraw]
    cases input with
    | plain d => exact prepare_core_empty_err _ _ _ _ _ hraw hneeds
    | maskedArr d mm =>
      exact prepare_core_empty_err _ _ _ _ _ (sel_union_empty d m mm hraw) hneeds
  | none =>
    cases input with
    | plain d =>
      have hraw : sel d (List.replicate d.length false) = [] := hsel
      rw [prepare_data_none_plain, hraw]
      exact prepare_core_empty_err _ _ _ _ _ hraw hneeds
    | maskedArr d mm =>
      have hraw : sel d mm = [] := hsel
      cases clo with
      | some c =>
        rw [prepare_data_none_masked d mm (some c) chi (by simp), hraw]
        exact prepare_core_empty_err _ _ _ _ _ hraw hneeds
      | none =>
        cases chi with
        | some c =>
          rw [prepare_data_none_masked d mm none (some c) (by simp), hraw]
          exact prepare_core_empty_err _ _ _ _ _ hraw hneeds
        | none => simp [isFastPath] at hnf

/-- Witness for C10: a fully masked input with a percentile low bound
fails. -/
theorem C10_empty_selection_witness :
    ∃ e, prepare_data (.maskedArr [1, 2] [true, true]) none
      (some (ClipArg.str "25%")) none = .error e :=
  C10_empty_selection (.maskedArr [1, 2] [true, true]) none
    (some (ClipArg.str "25%")) none rfl (by decide) (by decide) (by decide) (by decide)

theorem get_clip_parse_err (um : List ℚ) (s : String)
    (h : parseFloat (stripSpec s.data) = none) :
    get_clip um (ClipArg.str s) = .error .parseError := by
  simp only [stripSpec] at h
  simp only [get_clip]
  cases hp : endsPct (if startsBang s.data then s.data.drop 1 else s.data) <;>
    simp_all

theorem prepare_core_parse_err (d : List ℚ) (m : List Bool) (raw : List ℚ)
    (s : String) (chi : Option ClipArg) (sh : Bool)
    (h : parseFloat (stripSpec s.data) = none) :
    prepare_core d m raw (some (.str s)) chi sh = .error .parseError := by
  unfold prepare_core
  rw [show resolveBound (sel d m) raw npMin (some (.str s)) = .error .parseError from
    get_clip_parse_err _ s h, except_bind_err]

/-- C8 (amended): a string clip bound makes the call fail with a parse
error exactly when its body - the characters left after stripping the
optional leading `!` and the optional trailing `%` - is not accepted by
Python's `float()`: neither a finite decimal literal (optional sign and
surrounding whitespace, optional fraction, optional `e`/`E` exponent,
underscores between digits) nor an infinity/NaN literal.  In particular a
numeric string without the `%` suffix (e.g. `"3.5"` or `"1e5"`) is
accepted as an absolute bound, with a leading `!` still honored as
mask-on-clip.  Infinity/NaN bodies denote non-finite bounds outside the
rational model, so the theorem conditions on their absence; it is proved
for `clip_lo`, and `clip_hi` behaves symmetrically once `clip_lo`
resolves, `clip_lo` being resolved first. -/
theorem C8_amended_parse_err (input : Input) (ma : Option (List Bool)) (s : String)
    (chi : Option ClipArg)
    (hm : (effMask input ma).length = input.dataOf.length)
    (hfin : nonFiniteLit (stripSpec s.data) = false)
    (h : parseFloat (stripSpec s.data) = none) :
    prepare_data input ma (some (.str s)) chi = .error .parseError := by
  cases ma with
  | some m =>
    rw [prepare_data_some input m _ chi hm]
    exact prepare_core_parse_err _ _ _ _ _ _ h
  | none =>
    cases input with
    | plain d =>
      rw [prepare_data_none_plain]
      exact prepare_core_parse_err _ _ _ _ _ _ h
    | maskedArr d mm =>
      rw [prepare_data_none_masked d mm (some (.str s)) chi (by simp)]
      exact prepare_core_parse_err _ _ _ _ _ _ h

/-- Witness for the amended C8: the malformed percentile string `"abc%"`
is rejected with a parse error, while the exponent literal `"1e5"` - not
ending in `%` - is accepted as the absolute bound `100000` rather than
rejected. -/
theorem C8_amended_parse_err_witness :
    nonFiniteLit (stripSpec "abc%".data) = false ∧
      parseFloat (stripSpec "abc%".data) = none ∧
      parseFloat (stripSpec "1e5".data) = some 100000 ∧
      prepare_data (.plain [0, 1, 2, 3, 4]) none (some (ClipArg.str "abc%")) none =
        .error .parseError :=
  ⟨by decide, by decide, by decide,
    C8_amended_parse_err (.plain [0, 1, 2, 3, 4]) none "abc%" none
      (by decide) (by decide) (by decide)⟩

theorem resolveBound_plain_flag (um raw : List ℚ) (deflt : List ℚ → Except PrepErr ℚ)
    (b : Option ClipArg) (v : ℚ) (fl : Bool) (hb : plainBound b = true)
    (h : resolveBound um raw deflt b = .ok (v, fl)) : fl = false := by
  cases b with
  | none => exact resolveBound_none_flag _ _ _ _ _ h
  | some c =>
    cases c with
    | num x =>
      unfold resolveBound get_clip at h
      injection h with h'
      injection h' with h1 h2
      exact h2.symm
    | str s => simp [plainBound] at hb

theorem prepare_core_plain_spec (d : List ℚ) (m : List Bool) (raw : List ℚ)
    (clo chi : Option ClipArg) (sh : Bool) (out : PrepOut) (hm : m.length = d.length)
    (hplo : plainBound clo = true) (hphi : plainBound chi = true)
    (hok : prepare_core d m raw clo chi sh = .ok out) :
    ∃ lo hi, resolveBound (sel d m) raw npMin clo = .ok (lo, false) ∧
      resolveBound (sel d m) raw npMax chi = .ok (hi, false) ∧
      out = ⟨d.map (clipTo lo hi), m, false, sh⟩ := by
  unfold prepare_core at hok
  cases h1 : resolveBound (sel d m) raw npMin clo with
  | error e => rw [h1, except_bind_err] at hok; cases hok
  | ok lov =>
    obtain ⟨lo, bl⟩ := lov
    have hbl : bl = false := resolveBound_plain_flag _ _ _ _ _ _ hplo h1
    subst hbl
    rw [h1, except_bind_ok] at hok
    cases h2 : resolveBound (sel d m) raw npMax chi with
    | error e => rw [h2, except_bind_err] at hok; cases hok
    | ok hiv =>
      obtain ⟨hi, bh⟩ := hiv
      have hbh : bh = false := resolveBound_plain_flag _ _ _ _ _ _ hphi h2
      subst hbh
      rw [h2, except_bind_ok] at hok
      injection hok with h
      subst h
      exact ⟨lo, hi, rfl, rfl, by rw [bangMask_no_flags lo hi d m hm]⟩

theorem clipTo_self_lo (lo hi : ℚ) : clipTo lo hi lo = min lo hi := by
  unfold clipTo
  rw [max_self]

theorem clipTo_self_hi (lo hi : ℚ) : clipTo lo hi hi = hi := by
  unfold clipTo
  exact min_eq_right (le_max_left hi lo)

theorem prepare_core_idem (d : List ℚ) (m : List Bool) (raw raw2 : List ℚ)
    (clo chi : Option ClipArg) (sh sh2 : Bool) (out : PrepOut)
    (hm : m.length = d.length)
    (hplo : plainBound clo = true) (hphi : plainBound chi = true)
    (hok : prepare_core d m raw clo chi sh = .ok out) :
    prepare_core out.outData out.outMask raw2 clo chi sh2 =
      .ok ⟨out.outData, out.outMask, false, sh2⟩ := by
  obtain ⟨lo, hi, h1, h2, rfl⟩ :=
    prepare_core_plain_spec d m raw clo chi sh out hm hplo hphi hok
  dsimp only
  have hmlen : m.length = (d.map (clipTo lo hi)).length := by simpa using hm
  have hhi2 : resolveBound (sel (d.map (clipTo lo hi)) m) raw2 npMax chi =
      .ok (hi, false) := by
    cases chi with
    | none =>
      unfold resolveBound at h2 ⊢
      cases hd : npMax (sel d m) with
      | error e => rw [hd, except_map_err] at h2; cases h2
      | ok w =>
        rw [hd, except_map_ok] at h2
        injection h2 with h2'
        injection h2' with hw _
        rw [sel_map, npMax_map _ (clipTo_max_distrib lo hi), hd, except_map_ok,
          except_map_ok, hw, clipTo_self_hi]
    | some c =>
      cases c with
      | num x =>
        unfold resolveBound get_clip at h2 ⊢
        exact h2
      | str s => simp [plainBound] at hphi
  cases clo with
  | some c =>
    cases c with
    | str s => simp [plainBound] at hplo
    | num x =>
      have hx : x = lo := by
        have h1' := h1
        unfold resolveBound get_clip at h1'
        injection h1' with h'
        exact congrArg Prod.fst h'
      subst hx
      unfold prepare_core
      rw [show resolveBound (sel (d.map (clipTo x hi)) m) raw2 npMin (some (.num x)) =
        .ok (x, false) from rfl, except_bind_ok, hhi2, except_bind_ok]
      rw [map_comp_cancel _ _ (clipTo_idem x hi), bangMask_no_flags x hi _ _ hmlen]
  | none =>
    have hnm : npMin (sel d m) = .ok lo := by
      unfold resolveBound at h1
      cases hd : npMin (sel d m) with
      | error e => rw [hd, except_map_err] at h1; cases h1
      | ok w =>
        rw [hd, except_map_ok] at h1
        injection h1 with h'
        injection h' with hw _
        rw [hw]
    have hlo2 : resolveBound (sel (d.map (clipTo lo hi)) m) raw2 npMin none =
        .ok (min lo hi, false) := by
      unfold resolveBound
      rw [sel_map, npMin_map _ (clipTo_min_distrib lo hi), hnm, except_map_ok,
        except_map_ok, clipTo_self_lo]
    unfold prepare_core
    rw [hlo2, except_bind_ok, hhi2, except_bind_ok]
    rw [map_comp_cancel _ _ (clipTo_glb lo hi), bangMask_no_flags _ _ _ _ hmlen]

/-- C5 (amended): idempotence holds when each given clip bound is absent
or a plain number (no percentile re-resolution and no `!` flag): applying
`prepare_data` with the same arguments to the output of a successful first
application returns the same values and the same mask. -/
theorem C5_amended_idempotent (input : Input) (ma : Option (List Bool))
    (clo chi : Option ClipArg) (out : PrepOut) (hwf : input.WF)
    (hplo : plainBound clo = true) (hphi : plainBound chi = true)
    (hok : prepare_data input ma clo chi = .ok out) :
    ∃ out2, prepare_data (.maskedArr out.outData out.outMask) ma clo chi = .ok out2 ∧
      out2.outData = out.outData ∧ out2.outMask = out.outMask := by
  cases ma with
  | some m =>
    by_cases hlen : m.length = input.dataOf.length
    · rw [prepare_data_some input m clo chi hlen] at hok
      have hcomb := combMask_some_length input m hwf hlen
      obtain ⟨lo, hi, h1, h2, hout⟩ :=
        prepare_core_plain_spec _ _ _ _ _ _ _ hcomb hplo hphi hok
      have hidem := prepare_core_idem _ _ _ (sel out.outData m) _ _ _ false _
        hcomb hplo hphi hok
      refine ⟨⟨out.outData, out.outMask, false, false⟩, ?_, rfl, rfl⟩
      have hlen2 : m.length = (Input.dataOf (.maskedArr out.outData out.outMask)).length := by
        rw [hout]; simpa [Input.dataOf] using hlen
      rw [prepare_data_some (.maskedArr out.outData out.outMask) m clo chi hlen2]
      have hmask : out.outMask = combMask input (some m) := by rw [hout]
      have hunion : unionMask m out.outMask = out.outMask := by
        rw [hmask]
        cases input with
        | plain _ =>
          show unionMask m m = m
          exact unionMask_self m
        | maskedArr d2 mm =>
          show unionMask m (unionMask m mm) = unionMask m mm
          exact unionMask_absorb m mm
      calc prepare_core (Input.dataOf (.maskedArr out.outData out.outMask))
            (combMask (.maskedArr out.outData out.outMask) (some m))
            (sel (Input.dataOf (.maskedArr out.outData out.outMask)) m) clo chi
            (sharedFlag (.maskedArr out.outData out.outMask))
          = prepare_core out.outData out.outMask (sel out.outData m) clo chi false := by
            show prepare_core out.outData (unionMask m out.outMask)
              (sel out.outData m) clo chi false = _
            rw [hunion]
        _ = .ok ⟨out.outData, out.outMask, false, false⟩ := hidem
    · rw [prepare_data_shape_err input m clo chi hlen] at hok; cases hok
  | none =>
    cases input with
    | plain d =>
      rw [prepare_data_none_plain] at hok
      have hrep : (List.replicate d.length false).length = d.length := by simp
      have hidem := prepare_core_idem _ _ _
        (sel out.outData out.outMask) _ _ _ false _ hrep hplo hphi hok
      by_cases hcc : (clo.isNone && chi.isNone) = true
      · obtain ⟨hc1, hc2⟩ := Bool.and_eq_true_iff.mp hcc
        rw [Option.isNone_iff_eq_none] at hc1 hc2
        subst hc1; subst hc2
        exact ⟨⟨out.outData, out.outMask, true, false⟩, rfl, rfl, rfl⟩
      · rw [prepare_data_none_masked _ _ clo chi (Bool.eq_false_iff.mpr hcc)]
        exact ⟨⟨out.outData, out.outMask, false, false⟩, hidem, rfl, rfl⟩
    | maskedArr d mm =>
      by_cases hcc : (clo.isNone && chi.isNone) = true
      · obtain ⟨hc1, hc2⟩ := Bool.and_eq_true_iff.mp hcc
        rw [Option.isNone_iff_eq_none] at hc1 hc2
        subst hc1; subst hc2
        have hfast : prepare_data (.maskedArr d mm) none none none =
            .ok ⟨d, mm, true, false⟩ := rfl
        rw [hfast] at hok
        injection hok with h
        subst h
        exact ⟨⟨d, mm, true, false⟩, rfl, rfl, rfl⟩
      · rw [prepare_data_none_masked d mm clo chi (Bool.eq_false_iff.mpr hcc)] at hok
        have hidem := prepare_core_idem _ _ _
          (sel out.outData out.outMask) _ _ _ false _ hwf hplo hphi hok
        rw [prepare_data_none_masked _ _ clo chi (Bool.eq_false_iff.mpr hcc)]
        exact ⟨⟨out.outData, out.outMask, false, false⟩, hidem, rfl, rfl⟩

/-- Witness for the amended C5: a numeric `clip_lo=1` on `[0,1,2,3,4]` is
idempotent. -/
theorem C5_amended_idempotent_witness :
    ∃ out2, prepare_data
        (.maskedArr [1, 1, 2, 3, 4] (List.replicate 5 false)) none
        (some (ClipArg.num 1)) none = .ok out2 ∧
      out2.outData = PrepOut.outData ⟨[1, 1, 2, 3, 4], List.replicate 5 false, false, false⟩ ∧
      out2.outMask = PrepOut.outMask ⟨[1, 1, 2, 3, 4], List.replicate 5 false, false, false⟩ :=
  C5_amended_idempotent (.plain [0, 1, 2, 3, 4]) none (some (ClipArg.num 1)) none
    ⟨[1, 1, 2, 3, 4], List.replicate 5 false, false, false⟩ trivial
    (by decide) (by decide) (by decide)

end DesiPlots
